import Mathlib

/-!
Verification of the `resource-pool` Go package (`pool.go`).

The pool state, `Put`, `Get`, `Cleanup` and the maintainer's
notification-handling loop are embedded as pure Lean functions; the Go
`map[int64]T` becomes an association list `List (Int × T)` with Go's
insert-or-replace and delete-by-key semantics, and the arbitrary order of a
Go `range` over a map is modelled by quantifying over a `pick` index.

Impure ingredients are made explicit:
* the constructor (`factoryFn`) outcome is an input of `Get`
  (`Except ε T`), and a `ctorCalled` flag records whether it was invoked;
* the destructor is modelled by `Cleanup` returning the list of arguments
  it passes to `destructorFn`, in iteration order;
* `len(pool.requests)` — the Go length of the `requests` channel — is an
  input of `Put`, bounded by the channel's buffer capacity
  (`make(chan Request[T])` is unbuffered, so that capacity is 0);
* `value` of a failed `Get` is the Go zero value, modelled by `default`.

A `Get` reaching the saturated branch hands a request to the maintainer and
waits.  The `returnNotifs` channel is the only channel the maintainer's
inner `select` can receive a resource signal from, and the only send into it
is guarded by `len(pool.requests) > 0`, which is always false for the
unbuffered `requests` channel; hence every pending request ends with the
`time.After` case delivering `ErrResourceUnavailable`, and the sequential
embedding returns that outcome directly, leaving the pool unchanged.
-/

/-- Error surfaced by `Get`: the `ErrResourceUnavailable` sentinel produced
on wait-timeout, or an error propagated from the constructor callback. -/
inductive GetErr (ε : Type) where
  | resourceUnavailable : GetErr ε
  | factoryFailed : ε → GetErr ε
deriving DecidableEq, Repr

/-- Go `map[int64]T` as an association list: the mutable part of the pool
state of `Pool[Resource]` in `pool.go` (`idle`, `max`, `objsInUse`). -/
structure Pool (T : Type) where
  idle : List (Int × T)
  max : Int
  objsInUse : Int
deriving DecidableEq, Repr

/-- Keys of the idle map. -/
def mapKeys {T : Type} (m : List (Int × T)) : List Int :=
  m.map Prod.fst

/-- Go map assignment `m[k] = v`: replace the entry if the key is present,
otherwise add a fresh entry. -/
def mapInsert {T : Type} (k : Int) (v : T) : List (Int × T) → List (Int × T)
  | [] => [(k, v)]
  | (k2, v2) :: rest =>
      if k2 = k then (k, v) :: rest else (k2, v2) :: mapInsert k v rest

/-- Go `delete(m, k)`: remove the entry with key `k` (keys are unique in a
Go map, and stay unique in every reachable pool state). -/
def mapDelete {T : Type} (k : Int) : List (Int × T) → List (Int × T)
  | [] => []
  | (k2, v2) :: rest =>
      if k2 = k then rest else (k2, v2) :: mapDelete k rest

/-- `New` (pool.go:61): fresh pool with the requested capacity, an empty
idle map and a zero in-use counter.  (`preallocatePool` only sizes the map's
initial allocation and has no observable effect here.) -/
def New {T : Type} (maxSize : Int) : Pool T :=
  { idle := [], max := maxSize, objsInUse := 0 }

/-- Buffer capacity of `pool.requests`: `make(chan Request[T])` in `New`
creates an unbuffered channel, so Go's `len` of it is always 0. -/
def requestsChanCap : Nat := 0

/-- Buffer capacity of `pool.returnNotifs`: `make(chan struct..., 1)`. -/
def returnNotifsChanCap : Nat := 1

/-- Outcome of one `Put` call: the new pool state, the returned boolean,
whether the `returnNotifs <- struct{}{}` send was executed, and the
sequence of updates applied to `objsInUse` (`+1` per increment). -/
structure PutResult (T : Type) where
  pool : Pool T
  accepted : Bool
  notified : Bool
  counterEvents : List Int
deriving DecidableEq, Repr

/-- `Put` (pool.go:165).  `requestsLen` is the value Go's
`len(pool.requests)` reads at line 174. -/
def Put {T : Type} (pool : Pool T) (resource : T) (requestsLen : Nat) :
    PutResult T :=
  if pool.max = -1 ∨ pool.objsInUse ≤ pool.max then
    { pool := { pool with
                  idle := mapInsert pool.objsInUse resource pool.idle,
                  objsInUse := pool.objsInUse + 1 },
      accepted := true,
      notified := decide (requestsLen > 0),
      counterEvents := [1] }
  else
    { pool := pool, accepted := false, notified := false,
      counterEvents := [] }

/-- Outcome of one `Get` call: new pool state, the returned `(T, error)`
pair, whether `factoryFn` was invoked, and the sequence of updates applied
to `objsInUse` (`+1` for the optimistic increment, `-1` for the rollback). -/
structure GetResult (T ε : Type) where
  pool : Pool T
  value : T
  error : Option (GetErr ε)
  ctorCalled : Bool
  counterEvents : List Int
deriving DecidableEq, Repr

/-- `Get` (pool.go:117).  `pick` selects which entry the arbitrary-order
`range` over the idle map yields first; `factory` is the outcome `factoryFn`
would produce if invoked. -/
def Get {T ε : Type} [Inhabited T] (pool : Pool T) (pick : Nat)
    (factory : Except ε T) : GetResult T ε :=
  if pool.idle.length > 0 then
    -- (1) idle map non-empty: hand out an arbitrary entry
    { pool := { pool with
        idle := mapDelete
          (pool.idle.getD (pick % pool.idle.length) (0, default)).1 pool.idle },
      value := (pool.idle.getD (pick % pool.idle.length) (0, default)).2,
      error := none, ctorCalled := false,
      counterEvents := [] }
  else if pool.max ≠ -1 ∧ pool.objsInUse ≥ pool.max then
    -- (2) saturated: a pending request is handed to the maintainer; no
    -- return notification can ever arrive (see the header comment), so the
    -- wait times out and the error channel delivers ErrResourceUnavailable
    { pool := pool, value := default,
      error := some GetErr.resourceUnavailable, ctorCalled := false,
      counterEvents := [] }
  else
    -- (3) room to construct: optimistic increment, then run the factory
    match factory with
    | Except.ok r =>
        { pool := { pool with objsInUse := pool.objsInUse + 1 },
          value := r, error := none, ctorCalled := true,
          counterEvents := [1] }
    | Except.error e =>
        { pool := { pool with objsInUse := pool.objsInUse + 1 - 1 },
          value := default, error := some (GetErr.factoryFailed e),
          ctorCalled := true, counterEvents := [1, -1] }

/-- `Cleanup` (pool.go:49): iterate the idle map and call `destructorFn` on
each stored resource; the result is the list of arguments passed to the
destructor, in iteration order. -/
def Cleanup {T : Type} (pool : Pool T) : List T :=
  pool.idle.foldl (fun acc kr => acc ++ [kr.2]) []

/-- State of the maintainer's `case <-pool.returnNotifs` branch
(pool.go:103-110) while its `range` loop runs: the remaining idle map, how
many times `pool.m.Unlock()` ran, the resources sent into `req.c`, and the
`fulfilled` flag. -/
structure NotifLoopState (T : Type) where
  idle : List (Int × T)
  unlocks : Nat
  delivered : List T
  fulfilled : Bool
deriving DecidableEq, Repr

/-- One iteration of the maintainer's loop body: `delete(pool.idle, key)`,
`pool.m.Unlock()`, `req.c <- r`, `fulfilled = true`. -/
def notifLoopStep {T : Type} (s : NotifLoopState T) (kr : Int × T) :
    NotifLoopState T :=
  { idle := mapDelete kr.1 s.idle,
    unlocks := s.unlocks + 1,
    delivered := s.delivered ++ [kr.2],
    fulfilled := true }

/-- The maintainer's handling of one return notification (pool.go:103-110):
after `pool.m.Lock()`, the `for key, r := range pool.idle` loop visits every
entry of the map (deletions during `range` do not stop the iteration). -/
def maintainerOnNotif {T : Type} (idle : List (Int × T)) : NotifLoopState T :=
  idle.foldl notifLoopStep
    { idle := idle, unlocks := 0, delivered := [], fulfilled := false }

/-- A client operation in a sequential history against one pool:
a `Put` of a resource, or a `Get` (with the `range`-order pick and the
factory outcome it would observe). -/
inductive Op (T ε : Type) where
  | put : T → Op T ε
  | get : Nat → Except ε T → Op T ε

/-- Instrumented state of a sequential history: the pool, the multiset of
resources handed to callers by `Get` and not yet returned by an accepted
`Put` (the checked-out resources), the cumulative number of successful
`Get`s, of constructor invocations, and the logs of `Put`/`Get` outcomes. -/
structure TraceState (T ε : Type) where
  pool : Pool T
  held : List T
  sGets : Nat
  ctorCalls : Nat
  putLog : List Bool
  getLog : List (T × Option (GetErr ε))
deriving Repr

/-- Initial state: a fresh pool, nothing checked out, empty logs. -/
def initState {T ε : Type} (maxSize : Int) : TraceState T ε :=
  { pool := New maxSize, held := [], sGets := 0, ctorCalls := 0,
    putLog := [], getLog := [] }

/-- One operation of a sequential history.  `Put` reads
`len(pool.requests) = 0` (unbuffered channel).  An accepted `Put` of a
currently checked-out resource returns it (one occurrence leaves `held`);
an accepted `Put` of any other resource is an external preallocation. -/
def stepOp {T ε : Type} [Inhabited T] [DecidableEq T]
    (s : TraceState T ε) : Op T ε → TraceState T ε
  | Op.put r =>
      let res := Put s.pool r 0
      { s with
          pool := res.pool,
          held := if res.accepted then s.held.erase r else s.held,
          putLog := s.putLog ++ [res.accepted] }
  | Op.get pick factory =>
      let res := Get s.pool pick factory
      { s with
          pool := res.pool,
          held := match res.error with
                  | none => res.value :: s.held
                  | some _ => s.held,
          sGets := match res.error with
                   | none => s.sGets + 1
                   | some _ => s.sGets,
          ctorCalls := s.ctorCalls + (if res.ctorCalled then 1 else 0),
          getLog := s.getLog ++ [(res.value, res.error)] }

/-- Run a sequential history from the fresh pool. -/
def runOps {T ε : Type} [Inhabited T] [DecidableEq T]
    (maxSize : Int) (ops : List (Op T ε)) : TraceState T ε :=
  ops.foldl stepOp (initState maxSize)

/-!  ## Helper lemmas about the map model and the step characterizations -/

theorem getD_mem_of_lt {α : Type} (l : List α) (i : Nat) (d : α)
    (h : i < l.length) : l.getD i d ∈ l := by
  induction l generalizing i with
  | nil => simp at h
  | cons a t ih =>
      cases i with
      | zero => simp
      | succ n =>
          simp only [List.getD_cons_succ]
          exact List.mem_cons_of_mem a (ih n (by simpa using h))

theorem mapInsert_eq_append {T : Type} (k : Int) (v : T) (m : List (Int × T))
    (h : k ∉ mapKeys m) : mapInsert k v m = m ++ [(k, v)] := by
  induction m with
  | nil => rfl
  | cons kr rest ih =>
      obtain ⟨k2, v2⟩ := kr
      simp only [mapKeys, List.map_cons, List.mem_cons] at h
      push_neg at h
      simp only [mapInsert]
      rw [if_neg (fun e => h.1 e.symm), ih (by simpa [mapKeys] using h.2)]
      simp

theorem mem_mapKeys_of_mapDelete {T : Type} (k k' : Int) (m : List (Int × T))
    (h : k' ∈ mapKeys (mapDelete k m)) : k' ∈ mapKeys m := by
  induction m with
  | nil => simpa [mapDelete] using h
  | cons kr rest ih =>
      obtain ⟨k2, v2⟩ := kr
      simp only [mapDelete] at h
      by_cases hk : k2 = k
      · rw [if_pos hk] at h
        simp only [mapKeys, List.map_cons, List.mem_cons]
        exact Or.inr h
      · rw [if_neg hk] at h
        simp only [mapKeys, List.map_cons, List.mem_cons] at h ⊢
        rcases h with h | h
        · exact Or.inl h
        · exact Or.inr (ih h)

theorem length_mapDelete_add_one {T : Type} (k : Int) (m : List (Int × T))
    (h : k ∈ mapKeys m) : (mapDelete k m).length + 1 = m.length := by
  induction m with
  | nil => simp [mapKeys] at h
  | cons kr rest ih =>
      obtain ⟨k2, v2⟩ := kr
      simp only [mapDelete]
      by_cases hk : k2 = k
      · rw [if_pos hk]
        simp
      · rw [if_neg hk]
        simp only [mapKeys, List.map_cons, List.mem_cons] at h
        rcases h with h | h
        · exact absurd h.symm hk
        · simp only [List.length_cons]
          rw [← ih h]

theorem mem_mapKeys_of_getD {T : Type} [Inhabited T] (m : List (Int × T))
    (pick : Nat) (h : m.length > 0) :
    (m.getD (pick % m.length) (0, default)).1 ∈ mapKeys m :=
  List.mem_map_of_mem Prod.fst
    (getD_mem_of_lt m (pick % m.length) (0, default)
      (Nat.mod_lt pick h))

theorem Put_of_space {T : Type} (p : Pool T) (r : T) (len : Nat)
    (hc : p.max = -1 ∨ p.objsInUse ≤ p.max) :
    Put p r len =
      { pool := { p with
                    idle := mapInsert p.objsInUse r p.idle,
                    objsInUse := p.objsInUse + 1 },
        accepted := true, notified := decide (len > 0),
        counterEvents := [1] } := by
  simp only [Put, if_pos hc]

theorem Put_of_full {T : Type} (p : Pool T) (r : T) (len : Nat)
    (hc : ¬ (p.max = -1 ∨ p.objsInUse ≤ p.max)) :
    Put p r len =
      { pool := p, accepted := false, notified := false,
        counterEvents := [] } := by
  simp only [Put, if_neg hc]

theorem Get_of_idle {T ε : Type} [Inhabited T] (p : Pool T) (pick : Nat)
    (f : Except ε T) (h : p.idle.length > 0) :
    Get p pick f =
      { pool := { p with
          idle := mapDelete
            (p.idle.getD (pick % p.idle.length) (0, default)).1 p.idle },
        value := (p.idle.getD (pick % p.idle.length) (0, default)).2,
        error := none, ctorCalled := false, counterEvents := [] } := by
  simp only [Get, if_pos h]

theorem Get_of_saturated {T ε : Type} [Inhabited T] (p : Pool T) (pick : Nat)
    (f : Except ε T) (h1 : ¬ p.idle.length > 0)
    (h2 : p.max ≠ -1 ∧ p.objsInUse ≥ p.max) :
    Get p pick f =
      { pool := p, value := default,
        error := some GetErr.resourceUnavailable, ctorCalled := false,
        counterEvents := [] } := by
  simp only [Get, if_neg h1, if_pos h2]

theorem Get_of_construct_ok {T ε : Type} [Inhabited T] (p : Pool T)
    (pick : Nat) (r : T) (h1 : ¬ p.idle.length > 0)
    (h2 : ¬ (p.max ≠ -1 ∧ p.objsInUse ≥ p.max)) :
    Get p pick (Except.ok r : Except ε T) =
      { pool := { p with objsInUse := p.objsInUse + 1 },
        value := r, error := none, ctorCalled := true,
        counterEvents := [1] } := by
  simp only [Get, if_neg h1, if_neg h2]

theorem Get_of_construct_err {T ε : Type} [Inhabited T] (p : Pool T)
    (pick : Nat) (e : ε) (h1 : ¬ p.idle.length > 0)
    (h2 : ¬ (p.max ≠ -1 ∧ p.objsInUse ≥ p.max)) :
    Get p pick (Except.error e : Except ε T) =
      { pool := { p with objsInUse := p.objsInUse + 1 - 1 },
        value := default, error := some (GetErr.factoryFailed e),
        ctorCalled := true, counterEvents := [1, -1] } := by
  simp only [Get, if_neg h1, if_neg h2]

theorem cleanup_foldl_general {T : Type} (l : List (Int × T)) :
    ∀ acc : List T,
      l.foldl (fun a kr => a ++ [kr.2]) acc = acc ++ l.map Prod.snd := by
  induction l with
  | nil => intro acc; simp
  | cons kr rest ih =>
      intro acc
      simp only [List.foldl_cons, List.map_cons, ih]
      simp

theorem Cleanup_eq_map_snd {T : Type} (p : Pool T) :
    Cleanup p = p.idle.map Prod.snd := by
  simp [Cleanup, cleanup_foldl_general]

/-!  ## Reachability invariant of sequential histories -/

/-- Facts maintained by every sequential history against a pool created
with capacity `maxSize`: the configured capacity is immutable; the in-use
counter equals the idle-map size plus the number of successful `Get`s; all
idle-map keys are below the counter (so the key a `Put` uses is fresh); and
for a bounded positive capacity the counter never exceeds `maxSize + 1`. -/
structure ReachInv {T ε : Type} (maxSize : Int) (s : TraceState T ε) : Prop where
  maxEq : s.pool.max = maxSize
  counter : s.pool.objsInUse = s.pool.idle.length + s.sGets
  keysLt : ∀ k ∈ mapKeys s.pool.idle, k < s.pool.objsInUse
  bound : maxSize ≠ -1 → 0 < maxSize → s.pool.objsInUse ≤ maxSize + 1

theorem reachInv_init {T ε : Type} (maxSize : Int) :
    ReachInv maxSize (initState maxSize : TraceState T ε) := by
  refine ⟨rfl, by simp [initState, New], ?_, ?_⟩
  · intro k hk
    simp [initState, New, mapKeys] at hk
  · intro _ h
    simp only [initState, New]
    omega

theorem reachInv_step {T ε : Type} [Inhabited T] [DecidableEq T]
    (maxSize : Int) (s : TraceState T ε) (op : Op T ε)
    (hs : ReachInv maxSize s) : ReachInv maxSize (stepOp s op) := by
  obtain ⟨hmax, hcount, hkeys, hbound⟩ := hs
  cases op with
  | put r =>
      by_cases hc : s.pool.max = -1 ∨ s.pool.objsInUse ≤ s.pool.max
      · have hfresh : s.pool.objsInUse ∉ mapKeys s.pool.idle := by
          intro hmem
          exact absurd (hkeys _ hmem) (lt_irrefl _)
        simp only [stepOp, Put_of_space s.pool r 0 hc]
        refine ⟨hmax, ?_, ?_, ?_⟩
        · simp only [mapInsert_eq_append _ _ _ hfresh, List.length_append,
            List.length_singleton]
          push_cast
          omega
        · intro k hk
          dsimp only at hk ⊢
          simp only [mapInsert_eq_append _ _ _ hfresh, mapKeys,
            List.map_append, List.map_cons, List.map_nil,
            List.mem_append, List.mem_cons] at hk
          rcases hk with hk | hk
          · have := hkeys k hk
            omega
          · simp only [List.not_mem_nil, or_false] at hk
            omega
        · intro h1 h2
          dsimp only
          rcases hc with hc | hc
          · rw [hmax] at hc
            exact absurd hc h1
          · rw [hmax] at hc
            omega
      · simp only [stepOp, Put_of_full s.pool r 0 hc]
        exact ⟨hmax, hcount, hkeys, hbound⟩
  | get pick factory =>
      by_cases h1 : s.pool.idle.length > 0
      · have hkmem := mem_mapKeys_of_getD s.pool.idle pick h1
        have hlen := length_mapDelete_add_one _ _ hkmem
        simp only [stepOp, Get_of_idle s.pool pick factory h1]
        refine ⟨hmax, ?_, ?_, ?_⟩
        · dsimp only
          push_cast
          omega
        · intro k hk
          exact hkeys k (mem_mapKeys_of_mapDelete _ _ _ hk)
        · intro ha hb
          exact hbound ha hb
      · by_cases h2 : s.pool.max ≠ -1 ∧ s.pool.objsInUse ≥ s.pool.max
        · simp only [stepOp, Get_of_saturated s.pool pick factory h1 h2]
          exact ⟨hmax, hcount, hkeys, hbound⟩
        · have hidle : s.pool.idle = [] := by
            cases hi : s.pool.idle with
            | nil => rfl
            | cons a t => rw [hi] at h1; simp at h1
          cases factory with
          | ok r =>
              simp only [stepOp, Get_of_construct_ok s.pool pick r h1 h2]
              refine ⟨hmax, ?_, ?_, ?_⟩
              · simp only [hidle, List.length_nil] at hcount ⊢
                push_cast at hcount ⊢
                omega
              · intro k hk
                dsimp only at hk
                rw [hidle] at hk
                simp [mapKeys] at hk
              · intro ha hb
                dsimp only
                rw [hmax] at h2
                push_neg at h2
                have := h2 ha
                omega
          | error e =>
              simp only [stepOp, Get_of_construct_err s.pool pick e h1 h2]
              refine ⟨hmax, ?_, ?_, ?_⟩
              · dsimp only
                omega
              · intro k hk
                dsimp only at hk ⊢
                have := hkeys k hk
                omega
              · intro ha hb
                dsimp only
                have := hbound ha hb
                omega

theorem reachInv_foldl {T ε : Type} [Inhabited T] [DecidableEq T]
    (maxSize : Int) (ops : List (Op T ε)) :
    ∀ s : TraceState T ε, ReachInv maxSize s →
      ReachInv maxSize (ops.foldl stepOp s) := by
  induction ops with
  | nil => intro s hs; simpa using hs
  | cons op rest ih =>
      intro s hs
      simp only [List.foldl_cons]
      exact ih _ (reachInv_step maxSize s op hs)

theorem reachInv_runOps {T ε : Type} [Inhabited T] [DecidableEq T]
    (maxSize : Int) (ops : List (Op T ε)) :
    ReachInv maxSize (runOps maxSize ops) :=
  reachInv_foldl maxSize ops _ (reachInv_init maxSize)

/-- C1 evidence: `Put` never executes the `returnNotifs <- struct...` send:
the guard at pool.go:174 reads Go's `len` of the `requests` channel, which
is unbuffered (`requestsChanCap = 0`), so the length is always 0 and the
maintainer is never notified of a freed resource. -/
theorem put_never_signals_maintainer {T : Type} (p : Pool T) (r : T)
    (requestsLen : Nat) (h : requestsLen ≤ requestsChanCap) :
    (Put p r requestsLen).notified = false := by
  have hlen : requestsLen = 0 := by
    simpa [requestsChanCap] using h
  subst hlen
  by_cases hc : p.max = -1 ∨ p.objsInUse ≤ p.max
  · rw [Put_of_space p r 0 hc]
    rfl
  · rw [Put_of_full p r 0 hc]

/-- C1 witness: a concrete accepted `Put` on a fresh capacity-1 pool sends
no notification. -/
theorem put_never_signals_maintainer_witness :
    0 ≤ requestsChanCap ∧ (Put (New 1) (7 : Nat) 0).notified = false :=
  ⟨by decide, put_never_signals_maintainer (New 1) 7 0 (by decide)⟩

/-- C2 counterexample: starting from the empty capacity-1 pool, the
operation sequence `Put 7; Put 7` has both `Put`s accepted and drives the
in-use counter to 2, violating `in_use ≤ capacity`. -/
theorem inuse_exceeds_capacity :
    (runOps 1 ([Op.put 7, Op.put 7] : List (Op Nat Nat))).putLog = [true, true]
    ∧ (runOps 1 ([Op.put 7, Op.put 7] : List (Op Nat Nat))).pool.objsInUse = 2
    ∧ ¬ ((runOps 1 ([Op.put 7, Op.put 7] : List (Op Nat Nat))).pool.objsInUse
          ≤ (runOps 1 ([Op.put 7, Op.put 7] : List (Op Nat Nat))).pool.max) := by
  decide

/-- C2 amended: for a bounded positive capacity, after every sequence of
Get/Put operations from the empty pool, `idle.size ≤ in_use ≤ capacity + 1`
(the in-use counter can overshoot the capacity by exactly one, because `Put`
admits while `objsInUse <= max`). -/
theorem idle_le_inuse_le_capacity_succ {T ε : Type} [Inhabited T]
    [DecidableEq T] (maxSize : Int) (ops : List (Op T ε))
    (h1 : maxSize ≠ -1) (h2 : 0 < maxSize) :
    ((runOps maxSize ops).pool.idle.length : Int)
        ≤ (runOps maxSize ops).pool.objsInUse
    ∧ (runOps maxSize ops).pool.objsInUse ≤ maxSize + 1 := by
  obtain ⟨hmax, hcount, hkeys, hbound⟩ := reachInv_runOps maxSize ops
  refine ⟨?_, hbound h1 h2⟩
  rw [hcount]
  omega

/-- C2 amended witness: capacity 1, two `Put`s: `idle.size = 2 ≤ in_use = 2
≤ 2`. -/
theorem idle_le_inuse_le_capacity_succ_witness :
    ((1 : Int) ≠ -1 ∧ (0 : Int) < 1)
    ∧ (((runOps 1 ([Op.put 7, Op.put 7] : List (Op Nat Nat))).pool.idle.length : Int)
          ≤ (runOps 1 ([Op.put 7, Op.put 7] : List (Op Nat Nat))).pool.objsInUse
        ∧ (runOps 1 ([Op.put 7, Op.put 7] : List (Op Nat Nat))).pool.objsInUse ≤ 1 + 1) :=
  ⟨⟨by decide, by decide⟩,
    idle_le_inuse_le_capacity_succ 1 [Op.put 7, Op.put 7] (by decide) (by decide)⟩

/-- C3 counterexample: fresh capacity-1 pool, `Put 7` accepted; the in-use
count now equals the capacity, yet the next `Put 8` still returns true
(pool.go:168 tests `objsInUse <= max`, not `<`). -/
theorem put_accepts_at_capacity :
    (Put (New 1) (7 : Nat) 0).pool.objsInUse = (Put (New 1) (7 : Nat) 0).pool.max
    ∧ (Put (Put (New 1) (7 : Nat) 0).pool 8 0).accepted = true := by
  decide

/-- C3 amended: for a bounded-capacity pool, `Put` admits exactly when the
in-use count is at most the capacity (so it admits whenever strictly below,
and also at the capacity itself), and rejects, leaving the pool state
unmodified, exactly when the in-use count strictly exceeds the capacity. -/
theorem put_accepts_iff_within_capacity {T : Type} (p : Pool T) (r : T)
    (len : Nat) (hb : p.max ≠ -1) :
    ((Put p r len).accepted = true ↔ p.objsInUse ≤ p.max)
    ∧ ((Put p r len).accepted = false → (Put p r len).pool = p) := by
  by_cases hc : p.objsInUse ≤ p.max
  · rw [Put_of_space p r len (Or.inr hc)]
    refine ⟨⟨fun _ => hc, fun _ => rfl⟩, ?_⟩
    intro hfalse
    simp at hfalse
  · have hneg : ¬ (p.max = -1 ∨ p.objsInUse ≤ p.max) := by
      intro hor
      rcases hor with hor | hor
      · exact hb hor
      · exact hc hor
    rw [Put_of_full p r len hneg]
    refine ⟨⟨fun hfalse => by simp at hfalse, fun hle => absurd hle hc⟩, ?_⟩
    intro _
    rfl

/-- C3 amended witness: fresh capacity-1 pool, `Put` accepted with
`0 ≤ 1`. -/
theorem put_accepts_iff_within_capacity_witness :
    ((New 1 : Pool Nat).max ≠ -1)
    ∧ (((Put (New 1) (7 : Nat) 0).accepted = true
          ↔ (New 1 : Pool Nat).objsInUse ≤ (New 1 : Pool Nat).max)
        ∧ ((Put (New 1) (7 : Nat) 0).accepted = false
            → (Put (New 1) (7 : Nat) 0).pool = New 1)) :=
  ⟨by decide, put_accepts_iff_within_capacity (New 1) 7 0 (by decide)⟩

/-- C4 evidence: capacity 2, sequence `Put 7; Get; Put 7` — the caller
returned the only resource it ever checked out (`held` is empty) and one
resource is idle, yet the in-use counter is 2: `Put` increments the counter
even when re-admitting a resource that was already counted, so the counter
does not equal idle plus checked-out. -/
theorem inuse_differs_from_idle_plus_checked_out :
    (runOps 2 ([Op.put 7, Op.get 0 (Except.ok 99), Op.put 7]
        : List (Op Nat Nat))).pool.objsInUse = 2
    ∧ (runOps 2 ([Op.put 7, Op.get 0 (Except.ok 99), Op.put 7]
        : List (Op Nat Nat))).pool.idle.length = 1
    ∧ (runOps 2 ([Op.put 7, Op.get 0 (Except.ok 99), Op.put 7]
        : List (Op Nat Nat))).held.length = 0
    ∧ (runOps 2 ([Op.put 7, Op.get 0 (Except.ok 99), Op.put 7]
          : List (Op Nat Nat))).pool.objsInUse
        ≠ ((runOps 2 ([Op.put 7, Op.get 0 (Except.ok 99), Op.put 7]
              : List (Op Nat Nat))).pool.idle.length : Int)
          + ((runOps 2 ([Op.put 7, Op.get 0 (Except.ok 99), Op.put 7]
              : List (Op Nat Nat))).held.length : Int) := by
  decide

/-- C5 evidence: fresh capacity-1 pool, `Put 7; Get; Put 7; Get; Put 7;
Get` — the third `Put` is rejected (the counter has reached 2 from the two
earlier accepted `Put`s) and the third `Get` fails with
`ErrResourceUnavailable` instead of returning the resource; the constructor
is never invoked. -/
theorem put_get_cycle_breaks_at_third_round :
    (runOps 1 ([Op.put 7, Op.get 0 (Except.ok 99), Op.put 7,
        Op.get 0 (Except.ok 99), Op.put 7, Op.get 0 (Except.ok 99)]
        : List (Op Nat Nat))).putLog = [true, true, false]
    ∧ (runOps 1 ([Op.put 7, Op.get 0 (Except.ok 99), Op.put 7,
        Op.get 0 (Except.ok 99), Op.put 7, Op.get 0 (Except.ok 99)]
        : List (Op Nat Nat))).getLog
      = [(7, none), (7, none), (0, some GetErr.resourceUnavailable)]
    ∧ (runOps 1 ([Op.put 7, Op.get 0 (Except.ok 99), Op.put 7,
        Op.get 0 (Except.ok 99), Op.put 7, Op.get 0 (Except.ok 99)]
        : List (Op Nat Nat))).ctorCalls = 0 := by
  decide

/-- C6 evidence: when the maintainer consumes a return notification while
the idle map holds two entries, the missing `break` makes the `range` loop
run twice: it removes both resources, calls `Unlock` twice (the second call
is on an already-unlocked mutex) and attempts to deliver both resources to
the single pending request, instead of removing exactly one and unlocking
exactly once. -/
theorem maintainer_mishandles_two_idle :
    (maintainerOnNotif [((0 : Int), (7 : Nat)), (1, 8)]).unlocks = 2
    ∧ (maintainerOnNotif [((0 : Int), (7 : Nat)), (1, 8)]).delivered.length = 2
    ∧ (maintainerOnNotif [((0 : Int), (7 : Nat)), (1, 8)]).idle = [] := by
  decide

/-- C7: for every pool state reachable by a sequence of Get/Put operations,
`Cleanup` passes to the destructor exactly the resources idle at the time of
the call — the invocation list is the idle map's value list, its length is
the idle-map size, and any value not idle (in particular a checked-out
resource) receives zero invocations. -/
theorem cleanup_destructs_exactly_idle {T ε : Type} [Inhabited T]
    [DecidableEq T] (maxSize : Int) (ops : List (Op T ε)) :
    Cleanup (runOps maxSize ops).pool
        = (runOps maxSize ops).pool.idle.map Prod.snd
    ∧ (Cleanup (runOps maxSize ops).pool).length
        = (runOps maxSize ops).pool.idle.length
    ∧ ∀ r : T, r ∉ (runOps maxSize ops).pool.idle.map Prod.snd →
        (Cleanup (runOps maxSize ops).pool).count r = 0 := by
  refine ⟨Cleanup_eq_map_snd _, ?_, ?_⟩
  · rw [Cleanup_eq_map_snd]
    simp
  · intro r hr
    rw [Cleanup_eq_map_snd]
    exact List.count_eq_zero.mpr hr

/-- C7 witness: five `Put`s on a capacity-5 pool, then `Cleanup` — a value
that was never made idle is destructed zero times, and the destructor runs
once per idle resource. -/
theorem cleanup_destructs_exactly_idle_witness :
    ((99 : Nat) ∉ (runOps 5 ([Op.put 4, Op.put 4, Op.put 4, Op.put 4,
        Op.put 4] : List (Op Nat Nat))).pool.idle.map Prod.snd)
    ∧ (Cleanup (runOps 5 ([Op.put 4, Op.put 4, Op.put 4, Op.put 4,
        Op.put 4] : List (Op Nat Nat))).pool).count 99 = 0 :=
  ⟨by decide,
    (cleanup_destructs_exactly_idle 5 [Op.put 4, Op.put 4, Op.put 4,
      Op.put 4, Op.put 4]).2.2 99 (by decide)⟩

/-- C8: when the idle map is empty and there is room under the capacity (or
the pool is unbounded), a `Get` whose constructor fails with `e` returns
exactly `GetErr.factoryFailed e`, invokes the constructor exactly once with
no retry, and rolls the optimistic increment back so the in-use counter and
the idle map are unchanged. -/
theorem ctor_error_propagated_rolled_back {T ε : Type} [Inhabited T]
    (p : Pool T) (pick : Nat) (e : ε) (h1 : p.idle = [])
    (h2 : p.max = -1 ∨ p.objsInUse < p.max) :
    (Get p pick (Except.error e)).error = some (GetErr.factoryFailed e)
    ∧ (Get p pick (Except.error e)).pool.objsInUse = p.objsInUse
    ∧ (Get p pick (Except.error e)).pool.idle = p.idle
    ∧ (Get p pick (Except.error e)).ctorCalled = true
    ∧ (Get p pick (Except.error e)).counterEvents = [1, -1] := by
  have hny : ¬ p.idle.length > 0 := by
    simp [h1]
  have hns : ¬ (p.max ≠ -1 ∧ p.objsInUse ≥ p.max) := by
    rcases h2 with h | h
    · intro hc
      exact hc.1 h
    · intro hc
      omega
  rw [Get_of_construct_err p pick e hny hns]
  refine ⟨rfl, ?_, rfl, rfl, rfl⟩
  dsimp only
  omega

/-- C8 witness: fresh capacity-2 pool, constructor fails with 5. -/
theorem ctor_error_propagated_rolled_back_witness :
    ((New 2 : Pool Nat).idle = []
      ∧ ((New 2 : Pool Nat).max = -1 ∨ (New 2 : Pool Nat).objsInUse < (New 2 : Pool Nat).max))
    ∧ ((Get (New 2 : Pool Nat) 0 (Except.error (5 : Nat))).error
          = some (GetErr.factoryFailed 5)
        ∧ (Get (New 2 : Pool Nat) 0 (Except.error (5 : Nat))).pool.objsInUse
          = (New 2 : Pool Nat).objsInUse
        ∧ (Get (New 2 : Pool Nat) 0 (Except.error (5 : Nat))).pool.idle
          = (New 2 : Pool Nat).idle
        ∧ (Get (New 2 : Pool Nat) 0 (Except.error (5 : Nat))).ctorCalled = true
        ∧ (Get (New 2 : Pool Nat) 0 (Except.error (5 : Nat))).counterEvents
          = [1, -1]) :=
  ⟨⟨by decide, by decide⟩,
    ctor_error_propagated_rolled_back (New 2) 0 5 (by decide) (by decide)⟩

/-- C9: a `Get` served from a non-empty idle map leaves the in-use counter
unchanged and applies no counter update; a `Put` applies `+1` exactly when
it is accepted and never applies `-1`; a `Get` applies `+1` only in the
construction branch (idle map empty) and applies `-1` only when the
construction attempt failed. -/
theorem counter_update_discipline {T ε : Type} [Inhabited T] (p : Pool T)
    (pick : Nat) (f : Except ε T) (r : T) (len : Nat) :
    (p.idle ≠ [] →
      (Get p pick f).pool.objsInUse = p.objsInUse
      ∧ (Get p pick f).counterEvents = [])
    ∧ ((Put p r len).counterEvents
        = if (Put p r len).accepted then [1] else [])
    ∧ ((-1 : Int) ∉ (Put p r len).counterEvents)
    ∧ ((-1 : Int) ∈ (Get p pick f).counterEvents →
        p.idle = [] ∧ ∃ e, f = Except.error e)
    ∧ ((1 : Int) ∈ (Get p pick f).counterEvents → p.idle = []) := by
  have hput : ((Put p r len).counterEvents
        = if (Put p r len).accepted then [1] else [])
      ∧ ((-1 : Int) ∉ (Put p r len).counterEvents) := by
    by_cases hc : p.max = -1 ∨ p.objsInUse ≤ p.max
    · rw [Put_of_space p r len hc]
      exact ⟨rfl, by simp⟩
    · rw [Put_of_full p r len hc]
      exact ⟨rfl, by simp⟩
  by_cases h1 : p.idle.length > 0
  · rw [Get_of_idle p pick f h1]
    refine ⟨fun _ => ⟨rfl, rfl⟩, hput.1, hput.2, ?_, ?_⟩
    · intro h
      simp at h
    · intro h
      simp at h
  · have hnil : p.idle = [] := by
      cases hi : p.idle with
      | nil => rfl
      | cons a t => rw [hi] at h1; simp at h1
    have hne : ¬ p.idle ≠ [] := by
      simp [hnil]
    by_cases h2 : p.max ≠ -1 ∧ p.objsInUse ≥ p.max
    · rw [Get_of_saturated p pick f h1 h2]
      refine ⟨fun h => absurd h hne, hput.1, hput.2, ?_, ?_⟩
      · intro h
        simp at h
      · intro h
        simp at h
    · cases f with
      | ok v =>
          rw [Get_of_construct_ok p pick v h1 h2]
          refine ⟨fun h => absurd h hne, hput.1, hput.2, ?_, fun _ => hnil⟩
          intro h
          simp at h
      | error e =>
          rw [Get_of_construct_err p pick e h1 h2]
          exact ⟨fun h => absurd h hne, hput.1, hput.2,
            fun _ => ⟨hnil, e, rfl⟩, fun _ => hnil⟩

/-- C9 witness: a `Get` on a pool with one idle resource leaves the counter
at its old value with no counter updates, and an accepted `Put` applies
exactly `+1`. -/
theorem counter_update_discipline_witness :
    (({ idle := [(0, 7)], max := 1, objsInUse := 1 } : Pool Nat).idle ≠ [])
    ∧ ((Get ({ idle := [(0, 7)], max := 1, objsInUse := 1 } : Pool Nat) 0
          (Except.ok (9 : Nat) : Except Nat Nat)).pool.objsInUse
        = ({ idle := [(0, 7)], max := 1, objsInUse := 1 } : Pool Nat).objsInUse
      ∧ (Get ({ idle := [(0, 7)], max := 1, objsInUse := 1 } : Pool Nat) 0
          (Except.ok (9 : Nat) : Except Nat Nat)).counterEvents = []) :=
  ⟨by decide,
    (counter_update_discipline ({ idle := [(0, 7)], max := 1, objsInUse := 1 }
      : Pool Nat) 0 (Except.ok (9 : Nat) : Except Nat Nat) 7 0).1 (by decide)⟩

/-- C10: whenever `Get` returns a non-nil error — the timeout sentinel or a
constructor failure — the resource value it returns alongside is the zero
value of the resource type (`var defaultValue T` in both error paths). -/
theorem get_error_returns_zero_value {T ε : Type} [Inhabited T] (p : Pool T)
    (pick : Nat) (f : Except ε T) (h : (Get p pick f).error ≠ none) :
    (Get p pick f).value = default := by
  by_cases h1 : p.idle.length > 0
  · rw [Get_of_idle p pick f h1] at h
    exact absurd rfl h
  · by_cases h2 : p.max ≠ -1 ∧ p.objsInUse ≥ p.max
    · rw [Get_of_saturated p pick f h1 h2]
    · cases f with
      | ok v =>
          rw [Get_of_construct_ok p pick v h1 h2] at h
          exact absurd rfl h
      | error e =>
          rw [Get_of_construct_err p pick e h1 h2]

/-- C10 witness: a constructor failure on a fresh capacity-1 pool returns
the zero value 0 alongside its error. -/
theorem get_error_returns_zero_value_witness :
    ((Get (New 1 : Pool Nat) 0 (Except.error (3 : Nat))).error ≠ none)
    ∧ (Get (New 1 : Pool Nat) 0 (Except.error (3 : Nat))).value = default :=
  ⟨by decide,
    get_error_returns_zero_value (New 1) 0 (Except.error 3) (by decide)⟩
